import Mathlib

/-!
Verification development for the upload-accounting core of the video-bot
repository (src/main.py). The Python program keeps a SQLite table of video
uploads, deduplicated by the primary key (chat_id, file_unique_id), plus a
per-room settings table, a cycle calculator, aggregate count queries, a
leaderboard query, and a room-merge handler. The definitions below are a
shallow embedding of those operations: the videos table becomes a list of
rows, SQL queries become list functions, and side effects (the database
clock, the settings store) become explicit parameters.
-/

namespace VideoBot

/-- One row of the videos table created by init_db:
(chat_id, file_unique_id, first_uploader_id, first_uploader_username,
first_uploaded_at), with PRIMARY KEY (chat_id, file_unique_id).
Timestamps are UTC epoch seconds; the username column is nullable. -/
structure VideoRow where
  chat_id : Int
  file_unique_id : String
  first_uploader_id : Int
  first_uploader_username : Option String
  first_uploaded_at : Int
deriving DecidableEq, Repr

/-- The videos table, as the list of its rows. -/
abbrev VideosTable := List VideoRow

/-- The primary-key invariant of the videos table: no two rows share the
pair (chat_id, file_unique_id). -/
def pkUnique (t : VideosTable) : Prop :=
  List.Pairwise
    (fun r1 r2 => ¬(r1.chat_id = r2.chat_id ∧ r1.file_unique_id = r2.file_unique_id)) t

instance (t : VideosTable) : Decidable (pkUnique t) := by
  unfold pkUnique; infer_instance

/-- Whether the table already holds a row with primary key (chat, uniq).
This is what the PRIMARY KEY constraint consults on INSERT. -/
def hasKey (t : VideosTable) (chat : Int) (uniq : String) : Bool :=
  t.any fun r => r.chat_id == chat && r.file_unique_id == uniq

/-- SQLite INSERT under the primary-key constraint: on a key conflict the
statement raises IntegrityError and the table is unchanged (the caller
catches the error and does nothing); otherwise the row is appended.
The Bool reports whether the insert landed. -/
def insertVideo (t : VideosTable) (r : VideoRow) : VideosTable × Bool :=
  if hasKey t r.chat_id r.file_unique_id then (t, false) else (t ++ [r], true)

set_option linter.unusedVariables false in
/-- handle_video after the transport shim has extracted the facts: chat id,
file_unique_id (mp4/avi filter already passed), uploader id and username,
and the timestamp msgAt carried by the message. The INSERT writes
first_uploaded_at from the database clock, modelled as dbNow: the SQL is
VALUES (?, ?, ?, ?, strftime(percent-s, now)), so the stored instant is the
processing time and the message timestamp msgAt is not read at all.
A duplicate key raises IntegrityError, which the handler swallows. -/
def handle_video (t : VideosTable) (chat : Int) (uniq : String)
    (userId : Int) (username : Option String) (msgAt dbNow : Int) : VideosTable :=
  (insertVideo t { chat_id := chat, file_unique_id := uniq,
                   first_uploader_id := userId,
                   first_uploader_username := username,
                   first_uploaded_at := dbNow }).1

/-- current_cycle_bounds from src/main.py, over epoch seconds. The Python
code converts the anchor epoch to a KST datetime and works with timedelta
arithmetic; KST is a fixed UTC+9 offset with no daylight saving, so that
arithmetic coincides with plain arithmetic on epoch seconds. period is the
cycle length in seconds; if now is before the anchor the cycle starts at
the anchor, otherwise at anchor + floor(elapsed / period) * period (the
Python floor division of the nonnegative elapsed seconds). The returned
second component is the inclusive end, start + period - 1 second. -/
def current_cycle_bounds (anchor_ts : Int) (cycle_len_days : Int) (now_ts : Int) :
    Int × Int :=
  let period : Int := cycle_len_days * 86400
  let start : Int :=
    if now_ts < anchor_ts then anchor_ts
    else anchor_ts + ((now_ts - anchor_ts) / period) * period
  (start, start + period - 1)

/-- Day count from 1970-01-01 of a proleptic Gregorian civil date,
mirroring the date arithmetic the Python datetime module performs when
main.py builds datetime(y, M, d, tzinfo=KST). Standard era/day-of-era
computation; all divisions act on nonnegative values in range. -/
def daysFromCivil (y m d : Int) : Int :=
  let y2 := if m ≤ 2 then y - 1 else y
  let era := (if 0 ≤ y2 then y2 else y2 - 399) / 400
  let yoe := y2 - era * 400
  let mp := if 2 < m then m - 3 else m + 9
  let doy := (153 * mp + 2) / 5 + d - 1
  let doe := yoe * 365 + yoe / 4 - yoe / 100 + doy
  era * 146097 + doe - 719468

/-- to_epoch(datetime(y, M, d, 0, 0, 0, tzinfo=KST)) from src/main.py:
midnight of the given civil date in the fixed KST zone (UTC+9), as UTC
epoch seconds. -/
def kstMidnightEpoch (y m d : Int) : Int :=
  86400 * daysFromCivil y m d - 32400

/-- Python truthiness of an optional integer, as used by the guards
if user_id: and if not room_start_ts: in main.py — None and 0 are both
falsy, every other integer is truthy. -/
def pyTruthy : Option Int → Bool
  | none => false
  | some v => v != 0

/-- count_in_period from src/main.py. The SQL counts rows of the chat with
first_uploaded_at BETWEEN start_ts AND end_ts (inclusive on both ends);
the guard if user_id: adds the first_uploader_id filter only when the
argument is a truthy integer, so both None and 0 take the room-wide query. -/
def count_in_period (t : VideosTable) (chat : Int) (start_ts end_ts : Int)
    (user_id : Option Int) : Nat :=
  match user_id with
  | some uid =>
    if uid = 0 then
      (t.filter fun r => r.chat_id == chat &&
        decide (start_ts ≤ r.first_uploaded_at) &&
        decide (r.first_uploaded_at ≤ end_ts)).length
    else
      (t.filter fun r => r.chat_id == chat && r.first_uploader_id == uid &&
        decide (start_ts ≤ r.first_uploaded_at) &&
        decide (r.first_uploaded_at ≤ end_ts)).length
  | none =>
      (t.filter fun r => r.chat_id == chat &&
        decide (start_ts ≤ r.first_uploaded_at) &&
        decide (r.first_uploaded_at ≤ end_ts)).length

/-- count_since from src/main.py: rows of the chat with
first_uploaded_at >= start_ts, with the same truthiness-guarded uploader
filter as count_in_period. -/
def count_since (t : VideosTable) (chat : Int) (start_ts : Int)
    (user_id : Option Int) : Nat :=
  match user_id with
  | some uid =>
    if uid = 0 then
      (t.filter fun r => r.chat_id == chat &&
        decide (start_ts ≤ r.first_uploaded_at)).length
    else
      (t.filter fun r => r.chat_id == chat && r.first_uploader_id == uid &&
        decide (start_ts ≤ r.first_uploaded_at)).length
  | none =>
      (t.filter fun r => r.chat_id == chat &&
        decide (start_ts ≤ r.first_uploaded_at)).length

/-- One row of the chat_meta settings table, after the two ALTER TABLE
statements of init_db: nullable period bounds (legacy, unused), nullable
room_start_ts, baseline_total defaulting to 0, nullable anchor_ts, and
nullable cycle_len_days which every reader wraps in COALESCE(.., 8). -/
structure ChatMeta where
  period_start_ts : Option Int := none
  period_end_ts : Option Int := none
  room_start_ts : Option Int := none
  baseline_total : Int := 0
  anchor_ts : Option Int := none
  cycle_len_days : Option Int := none
deriving DecidableEq, Repr

/-- roomcount from src/main.py, as a function of the videos table, the
room settings row and the chat id. The Python guard is
if not room_start_ts:, which is taken when the column is NULL and also
when it is 0, and then the handler replies with the configuration-guidance
message (modelled as none); otherwise the reply is
baseline_total + count_since(chat, room_start_ts) (modelled as some). -/
def roomcount (t : VideosTable) (meta : ChatMeta) (chat : Int) : Option Int :=
  match meta.room_start_ts with
  | none => none
  | some s =>
    if s = 0 then none
    else some (meta.baseline_total + (count_since t chat s none : Int))

/-- get_anchor_and_len from src/main.py: reads (anchor_ts,
COALESCE(cycle_len_days, 8)) for the chat. The settings store is modelled
as a total function from chat id to its ChatMeta row; the lazy
INSERT OR IGNORE creation of a defaults row changes no observable field,
so it is invisible in this model. -/
def get_anchor_and_len (st : Int → ChatMeta) (chat : Int) : Option Int × Int :=
  ((st chat).anchor_ts, (st chat).cycle_len_days.getD 8)

/-- set_anchor_and_len from src/main.py: upsert that overwrites anchor_ts
and cycle_len_days of the row for the chat, leaving every other column and
every other room untouched. -/
def set_anchor_and_len (st : Int → ChatMeta) (chat : Int) (anchor : Int)
    (days : Int) : Int → ChatMeta :=
  fun c =>
    if c = chat then
      { st chat with anchor_ts := some anchor, cycle_len_days := some days }
    else st c

/-- The three replies the setcyclelen handler can produce after argument
parsing: the bad-range guidance message, the set-an-anchor-first guidance
message, or the success message echoing the day count. -/
inductive SetCycleLenOutcome where
  | invalidInput
  | needAnchor
  | ok (days : Int)
deriving DecidableEq, Repr

/-- setcyclelen from src/main.py, after int(args[0]) has parsed the day
count. The handler rejects days <= 0 or days > 31 before touching the
store, then reads the anchor and rejects when it is NULL, and only then
calls set_anchor_and_len(chat, anchor, days) which rewrites the anchor to
its current value and stores the new cycle length. -/
def setcyclelen (st : Int → ChatMeta) (chat : Int) (days : Int) :
    SetCycleLenOutcome × (Int → ChatMeta) :=
  if days ≤ 0 ∨ 31 < days then (.invalidInput, st)
  else
    match get_anchor_and_len st chat with
    | (none, _) => (.needAnchor, st)
    | (some a, _) => (.ok days, set_anchor_and_len st chat a days)

/-- Re-homing of a ledger row to another chat id, as performed by the
INSERT inside handle_migrate: every column except chat_id is copied from
the source row. -/
def moveRow (newId : Int) (r : VideoRow) : VideoRow :=
  { r with chat_id := newId }

/-- handle_migrate from src/main.py: read all rows of the old chat, try to
re-insert each under the new chat id (an IntegrityError from the primary
key is swallowed, keeping the destination row), then delete every row of
the old chat. -/
def handle_migrate (t : VideosTable) (oldId newId : Int) : VideosTable :=
  let rows := t.filter fun r => r.chat_id == oldId
  let t1 := rows.foldl (fun acc r => (insertVideo acc (moveRow newId r)).1) t
  t1.filter fun r => !(r.chat_id == oldId)

/-- COALESCE(first_uploader_username, empty string), as in the top query. -/
def coalesceName (o : Option String) : String := o.getD ""

/-- The GROUP BY key of the top query: (first_uploader_id,
COALESCE(first_uploader_username, empty string)). -/
def rowKey (r : VideoRow) : Int × String :=
  (r.first_uploader_id, coalesceName r.first_uploader_username)

/-- One output row of the top query: uploader id, coalesced username, and
the COUNT(*) of the group. -/
structure TopRow where
  uploader_id : Int
  uname : String
  cnt : Nat
deriving DecidableEq, Repr

/-- Insertion step of a stable descending sort on cnt: the new row goes
after every existing row whose count is at least as large. -/
def insertByCntDesc (x : TopRow) : List TopRow → List TopRow
  | [] => [x]
  | y :: ys => if y.cnt < x.cnt then x :: y :: ys else y :: insertByCntDesc x ys

/-- Stable insertion sort by cnt descending, realising ORDER BY c DESC.
SQLite leaves the relative order of rows with equal c unspecified; this
embedding fixes one concrete refinement of that freedom. -/
def sortByCntDesc (l : List TopRow) : List TopRow :=
  l.foldr insertByCntDesc []

/-- The top query of src/main.py without its LIMIT clause:
SELECT first_uploader_id, COALESCE(first_uploader_username, empty) uname,
COUNT(*) c FROM videos WHERE chat_id=? GROUP BY first_uploader_id, uname
ORDER BY c DESC. One output row per distinct (uploader id, coalesced
username) pair occurring in the chat, carrying the number of ledger rows
with exactly that pair, sorted by count descending. -/
def topAll (t : VideosTable) (chat : Int) : List TopRow :=
  let rows := t.filter fun r => r.chat_id == chat
  let keys := (rows.map rowKey).dedup
  sortByCntDesc (keys.map fun k =>
    { uploader_id := k.1, uname := k.2,
      cnt := (rows.filter fun r => rowKey r == k).length })

/-- The top query of src/main.py including LIMIT 10. -/
def top (t : VideosTable) (chat : Int) : List TopRow :=
  (topAll t chat).take 10

/-- Concrete ledger for exercising the count queries: chat 1 holds one row
credited to uploader 0 and one row credited to uploader 5. -/
def c9Table : VideosTable :=
  [{ chat_id := 1, file_unique_id := "a", first_uploader_id := 0,
     first_uploader_username := none, first_uploaded_at := 10 },
   { chat_id := 1, file_unique_id := "b", first_uploader_id := 5,
     first_uploader_username := some "u", first_uploaded_at := 20 }]

/-- Concrete settings row whose room_start_ts is stored as instant 0. -/
def c10Meta : ChatMeta := { room_start_ts := some 0, baseline_total := 7 }

/-- Concrete ledger with one row in chat 1. -/
def c10Table : VideosTable :=
  [{ chat_id := 1, file_unique_id := "a", first_uploader_id := 5,
     first_uploader_username := none, first_uploaded_at := 100 }]

/-- Concrete settings row with room_start_ts set to the epoch instant 0
and a nonzero baseline. -/
def c4Meta : ChatMeta := { room_start_ts := some 0, baseline_total := 5 }

/-- Concrete settings row with a nonzero room_start_ts and baseline 5. -/
def c4MetaOk : ChatMeta := { room_start_ts := some 50, baseline_total := 5 }

/-- Concrete ledger with two rows in chat 1, both at or after instant 50. -/
def c4Table : VideosTable :=
  [{ chat_id := 1, file_unique_id := "a", first_uploader_id := 5,
     first_uploader_username := none, first_uploaded_at := 100 },
   { chat_id := 1, file_unique_id := "b", first_uploader_id := 6,
     first_uploader_username := none, first_uploaded_at := 200 }]

/-- Concrete settings store whose every room has anchor 1000 and otherwise
default fields. -/
def c6Settings : Int → ChatMeta := fun _ => { anchor_ts := some 1000 }

/-- Concrete settings store in which no room has an anchor. -/
def c6NoAnchor : Int → ChatMeta := fun _ => {}

/-- Concrete ledger with one row in chat 1 keyed by file_unique_id a. -/
def c1Table : VideosTable :=
  [{ chat_id := 1, file_unique_id := "a", first_uploader_id := 5,
     first_uploader_username := some "x", first_uploaded_at := 10 }]

/-- Concrete ledger in which the single uploader 7 is credited with three
distinct videos, two recorded under the stored username a and one under
the stored username b (usernames are captured at insert time and may
differ between rows of the same uploader). -/
def c5Table : VideosTable :=
  [{ chat_id := 1, file_unique_id := "v1", first_uploader_id := 7,
     first_uploader_username := some "a", first_uploaded_at := 10 },
   { chat_id := 1, file_unique_id := "v2", first_uploader_id := 7,
     first_uploader_username := some "a", first_uploaded_at := 11 },
   { chat_id := 1, file_unique_id := "v3", first_uploader_id := 7,
     first_uploader_username := some "b", first_uploaded_at := 12 }]

/-- Concrete ledger for the merge: chat 1 holds videos a and b, chat 2
independently holds the same video b (with its own credit) and chat 3 is
an unrelated room. -/
def c3Table : VideosTable :=
  [{ chat_id := 1, file_unique_id := "a", first_uploader_id := 5,
     first_uploader_username := some "x", first_uploaded_at := 10 },
   { chat_id := 1, file_unique_id := "b", first_uploader_id := 6,
     first_uploader_username := none, first_uploaded_at := 11 },
   { chat_id := 2, file_unique_id := "b", first_uploader_id := 9,
     first_uploader_username := some "y", first_uploaded_at := 3 },
   { chat_id := 3, file_unique_id := "c", first_uploader_id := 4,
     first_uploader_username := none, first_uploaded_at := 7 }]

/-- The row-by-row effect of the re-insertion loop of handle_migrate,
made explicit for reasoning: walk the source rows, skip a row whose key
(newId, file_unique_id) is already present in the accumulated table, and
otherwise emit its re-homed copy while extending the accumulated table
with it. migrateInsert newId acc rows lists exactly the rows the loop
appends when started with table acc. -/
def migrateInsert (newId : Int) (acc : VideosTable) : List VideoRow → List VideoRow
  | [] => []
  | r :: rs =>
    if hasKey acc newId r.file_unique_id then migrateInsert newId acc rs
    else moveRow newId r :: migrateInsert newId (acc ++ [moveRow newId r]) rs

theorem hasKey_iff (t : VideosTable) (c : Int) (u : String) :
    hasKey t c u = true ↔ ∃ r ∈ t, r.chat_id = c ∧ r.file_unique_id = u := by
  simp [hasKey]

theorem hasKey_false_iff (t : VideosTable) (c : Int) (u : String) :
    hasKey t c u = false ↔ ∀ r ∈ t, ¬(r.chat_id = c ∧ r.file_unique_id = u) := by
  rw [← Bool.not_eq_true, hasKey_iff]
  push_neg
  constructor
  · intro h r hr hc
    exact (h r hr hc)
  · intro h r hr hc
    exact (h r hr hc)

theorem hasKey_append (t1 t2 : VideosTable) (c : Int) (u : String) :
    hasKey (t1 ++ t2) c u = (hasKey t1 c u || hasKey t2 c u) := by
  simp [hasKey, List.any_append]

/-- C9: at the count interfaces, an uploader filter of 0 behaves exactly
like an absent filter and yields the room-wide count: the Python guard
if user_id: is false for 0. Conjuncts 1 and 2 state the indistinguishability
for both queries over every table and interval; conjunct 3 spells out that
the value produced is the all-uploaders count of the room; conjuncts 4 and 5
exhibit a concrete ledger on which the room-wide count (2) differs from the
number of rows actually credited to uploader 0 (1). -/
theorem c9_count_uploader_zero (t : VideosTable) (chat s e : Int) :
    count_in_period t chat s e (some 0) = count_in_period t chat s e none ∧
    count_since t chat s (some 0) = count_since t chat s none ∧
    count_in_period t chat s e (some 0) =
      (t.filter fun r => r.chat_id == chat &&
        decide (s ≤ r.first_uploaded_at) &&
        decide (r.first_uploaded_at ≤ e)).length ∧
    count_in_period c9Table 1 0 100 (some 0) = 2 ∧
    (c9Table.filter fun r => r.chat_id == 1 && r.first_uploader_id == 0 &&
        decide ((0 : Int) ≤ r.first_uploaded_at) &&
        decide (r.first_uploaded_at ≤ 100)).length = 1 := by
  refine ⟨rfl, rfl, rfl, by decide, by decide⟩

/-- C10: when a room has room_start_ts stored as the epoch instant 0, the
roomcount query takes the configuration-error path (the guidance reply,
modelled as none) and is indistinguishable from a room whose
room_start_ts is absent. -/
theorem c10_room_start_zero (t : VideosTable) (meta : ChatMeta) (chat : Int)
    (h : meta.room_start_ts = some 0) :
    roomcount t meta chat = none ∧
    roomcount t meta chat = roomcount t { meta with room_start_ts := none } chat := by
  constructor
  · simp [roomcount, h]
  · simp [roomcount, h]

theorem c10_witness :
    roomcount c10Table c10Meta 1 = none :=
  (c10_room_start_zero c10Table c10Meta 1 rfl).1

/-- C4 counterexample: a room whose room_start_ts is stored as instant 0
is a room with room_start_instant set, yet roomcount answers with the
configuration-error reply (none) instead of
baseline_total + count_since(room_start), refuting the claim as stated. -/
theorem c4_counterexample :
    c4Meta.room_start_ts = some 0 ∧
    roomcount c4Table c4Meta 1 ≠
      some (c4Meta.baseline_total + (count_since c4Table 1 0 none : Int)) := by
  decide

/-- C4 (amended): for every room whose room_start_ts is set to a nonzero
instant, roomcount answers baseline_total plus the count of ledger rows of
the room with first_uploaded_at at or after room_start_ts (the bound is
inclusive); when room_start_ts is absent the reply is the
configuration-error guidance (none); and raising only the baseline by K
raises the answer by exactly K with the ledger untouched. -/
theorem c4_room_total (t : VideosTable) (meta : ChatMeta) (chat s : Int)
    (hs : meta.room_start_ts = some s) (hnz : s ≠ 0) :
    roomcount t meta chat =
      some (meta.baseline_total +
        ((t.filter fun r => r.chat_id == chat &&
            decide (s ≤ r.first_uploaded_at)).length : Int)) ∧
    (∀ m : ChatMeta, m.room_start_ts = none → roomcount t m chat = none) ∧
    (∀ K : Int,
      roomcount t { meta with baseline_total := meta.baseline_total + K } chat =
        some (meta.baseline_total + K +
          ((t.filter fun r => r.chat_id == chat &&
              decide (s ≤ r.first_uploaded_at)).length : Int))) := by
  refine ⟨?_, ?_, ?_⟩
  · simp [roomcount, hs, hnz, count_since]
  · intro m hm
    simp [roomcount, hm]
  · intro K
    simp [roomcount, hs, hnz, count_since]

theorem c4_witness :
    roomcount c4Table c4MetaOk 1 = some 7 := by
  have h := (c4_room_total c4Table c4MetaOk 1 50 rfl (by decide)).1
  rw [h]
  decide

/-- C6: setcyclelen rejects a day count outside [1, 31] as invalid input
and rejects a missing anchor with the configuration guidance, in both
cases returning the settings store unchanged; with an anchor present and
1 <= days <= 31 it reports success, stores the new cycle length, keeps
the anchor, room start and baseline of the room, and leaves every other
room untouched. -/
theorem c6_setcyclelen (st : Int → ChatMeta) (chat days : Int) :
    ((days < 1 ∨ 31 < days) → setcyclelen st chat days = (.invalidInput, st)) ∧
    (1 ≤ days → days ≤ 31 → (st chat).anchor_ts = none →
      setcyclelen st chat days = (.needAnchor, st)) ∧
    (∀ a : Int, 1 ≤ days → days ≤ 31 → (st chat).anchor_ts = some a →
      (setcyclelen st chat days).1 = .ok days ∧
      ((setcyclelen st chat days).2 chat).cycle_len_days = some days ∧
      ((setcyclelen st chat days).2 chat).anchor_ts = some a ∧
      ((setcyclelen st chat days).2 chat).room_start_ts = (st chat).room_start_ts ∧
      ((setcyclelen st chat days).2 chat).baseline_total = (st chat).baseline_total ∧
      (∀ c : Int, c ≠ chat → (setcyclelen st chat days).2 c = st c)) := by
  refine ⟨?_, ?_, ?_⟩
  · intro h
    have hcond : days ≤ 0 ∨ 31 < days := by omega
    simp [setcyclelen, hcond]
  · intro h1 h2 hanchor
    have hcond : ¬(days ≤ 0 ∨ 31 < days) := by omega
    simp [setcyclelen, hcond, get_anchor_and_len, hanchor]
  · intro a h1 h2 hanchor
    have hcond : ¬(days ≤ 0 ∨ 31 < days) := by omega
    refine ⟨?_, ?_, ?_, ?_, ?_, ?_⟩ <;>
      simp [setcyclelen, hcond, get_anchor_and_len, hanchor, set_anchor_and_len]
    intro c hc
    simp [hc]

theorem c6_witness :
    (setcyclelen c6Settings 1 40).1 = .invalidInput ∧
    (setcyclelen c6NoAnchor 1 5).1 = .needAnchor ∧
    ((setcyclelen c6Settings 1 5).2 1).cycle_len_days = some 5 ∧
    ((setcyclelen c6Settings 1 5).2 1).anchor_ts = some 1000 := by
  refine ⟨?_, ?_, ?_, ?_⟩
  · rw [(c6_setcyclelen c6Settings 1 40).1 (by omega)]
  · rw [(c6_setcyclelen c6NoAnchor 1 5).2.1 (by omega) (by omega) rfl]
  · exact ((c6_setcyclelen c6Settings 1 5).2.2 1000 (by omega) (by omega) rfl).2.1
  · exact ((c6_setcyclelen c6Settings 1 5).2.2 1000 (by omega) (by omega) rfl).2.2.1

/-- C8 counterexample: an upload event carrying the extracted message
instant 100, processed by the store at instant 200, is recorded with
first_uploaded_at 200 — the processing time, not the instant supplied
with the event — refuting the claim as stated. -/
theorem c8_counterexample :
    handle_video [] 1 "v" 7 none 100 200 =
      [{ chat_id := 1, file_unique_id := "v", first_uploader_id := 7,
         first_uploader_username := none, first_uploaded_at := 200 }] ∧
    ∀ r ∈ handle_video [] 1 "v" 7 none 100 200, r.first_uploaded_at ≠ 100 := by
  decide

/-- C8 (amended): when the insert lands, the new ledger row records
first_uploaded_at equal to the database clock at processing time (the
SQL strftime now), and the result does not depend on the timestamp
extracted from the message at all. -/
theorem c8_inserted_timestamp (t : VideosTable) (chat : Int) (uniq : String)
    (uid : Int) (un : Option String) (msgAt dbNow : Int)
    (h : hasKey t chat uniq = false) :
    handle_video t chat uniq uid un msgAt dbNow =
      t ++ [{ chat_id := chat, file_unique_id := uniq, first_uploader_id := uid,
              first_uploader_username := un, first_uploaded_at := dbNow }] ∧
    (∀ msgAt2 : Int,
      handle_video t chat uniq uid un msgAt2 dbNow =
        handle_video t chat uniq uid un msgAt dbNow) := by
  constructor
  · simp [handle_video, insertVideo, h]
  · intro msgAt2
    rfl

theorem c8_witness :
    handle_video c1Table 1 "z" 9 none 50 60 =
      c1Table ++ [{ chat_id := 1, file_unique_id := "z", first_uploader_id := 9,
                    first_uploader_username := none, first_uploaded_at := 60 }] :=
  (c8_inserted_timestamp c1Table 1 "z" 9 none 50 60 (by decide)).1

/-- C1: the primary key (chat_id, file_unique_id) keeps at most one ledger
row per pair: handle_video preserves the uniqueness invariant, and when a
row with the same pair is already present, the repeat upload leaves the
table completely unchanged — in particular the stored first uploader id,
username and first-upload instant of the original row survive untouched
and no state change happens. -/
theorem c1_dedup_invariant (t : VideosTable) (chat : Int) (uniq : String)
    (uid : Int) (un : Option String) (msgAt dbNow : Int)
    (hu : pkUnique t) :
    pkUnique (handle_video t chat uniq uid un msgAt dbNow) ∧
    (∀ r0 ∈ t, r0.chat_id = chat → r0.file_unique_id = uniq →
      handle_video t chat uniq uid un msgAt dbNow = t) := by
  constructor
  · by_cases h : hasKey t chat uniq = true
    · simpa [handle_video, insertVideo, h] using hu
    · have hf : hasKey t chat uniq = false := by
        revert h; cases hasKey t chat uniq <;> simp
      have habs := (hasKey_false_iff t chat uniq).mp hf
      simp only [handle_video, insertVideo, hf]
      rw [if_neg (by simp [hf])]
      refine List.pairwise_append.mpr ⟨hu, List.pairwise_singleton _ _, ?_⟩
      intro x hx y hy
      simp only [List.mem_singleton] at hy
      subst hy
      exact habs x hx
  · intro r0 hr0 hc hf
    have hk : hasKey t chat uniq = true :=
      (hasKey_iff t chat uniq).mpr ⟨r0, hr0, hc, hf⟩
    simp [handle_video, insertVideo, hk]

theorem c1_witness :
    pkUnique (handle_video c1Table 1 "z" 9 none 99 100) ∧
    handle_video c1Table 1 "a" 9 none 99 100 = c1Table := by
  constructor
  · exact (c1_dedup_invariant c1Table 1 "z" 9 none 99 100 (by decide)).1
  · exact (c1_dedup_invariant c1Table 1 "a" 9 none 99 100 (by decide)).2
      { chat_id := 1, file_unique_id := "a", first_uploader_id := 5,
        first_uploader_username := some "x", first_uploaded_at := 10 }
      (by decide) rfl rfl

/-- C2: with a positive cycle length of L days (period P = L * 86400
seconds), current_cycle_bounds is the pure cycle calculator the spec
describes. When now is before the anchor it returns the cycle starting at
the anchor; when now is at or after the anchor it returns the cycle
starting at S = anchor + floor((now - anchor) / P) * P; the returned pair
is (S, S + P - 1), the inclusive-end rendering of the half-open interval
[S, S + P); now always lies inside the returned bounds; and every instant
anchor + k * P + r with 0 <= r < P is assigned the cycle starting at
anchor + k * P, so consecutive cycles tile time from the anchor forward
with no gap and no overlap. -/
theorem c2_cycle_partition (A L T : Int) (hL : 0 < L) :
    (T < A → current_cycle_bounds A L T = (A, A + L * 86400 - 1)) ∧
    (A ≤ T →
      current_cycle_bounds A L T =
        (A + ((T - A) / (L * 86400)) * (L * 86400),
         A + ((T - A) / (L * 86400)) * (L * 86400) + L * 86400 - 1)) ∧
    (A ≤ T → (current_cycle_bounds A L T).1 ≤ T ∧
             T ≤ (current_cycle_bounds A L T).2) ∧
    (∀ k r : Int, 0 ≤ k → 0 ≤ r → r < L * 86400 →
      (current_cycle_bounds A L (A + k * (L * 86400) + r)).1 = A + k * (L * 86400)) := by
  have hP : (0 : Int) < L * 86400 := by positivity
  refine ⟨?_, ?_, ?_, ?_⟩
  · intro h
    simp [current_cycle_bounds, h]
  · intro h
    have h2 : ¬(T < A) := not_lt.mpr h
    simp [current_cycle_bounds, h2]
  · intro h
    have h2 : ¬(T < A) := not_lt.mpr h
    have hdm := Int.ediv_add_emod (T - A) (L * 86400)
    have hr0 : 0 ≤ (T - A) % (L * 86400) := Int.emod_nonneg (T - A) (ne_of_gt hP)
    have hr1 : (T - A) % (L * 86400) < L * 86400 := Int.emod_lt_of_pos (T - A) hP
    constructor
    · simp only [current_cycle_bounds, h2, if_false]
      nlinarith [hdm, hr0, hr1]
    · simp only [current_cycle_bounds, h2, if_false]
      nlinarith [hdm, hr0, hr1]
  · intro k r hk hr hrP
    have h2 : ¬(A + k * (L * 86400) + r < A) := by nlinarith
    simp only [current_cycle_bounds, h2, if_false]
    have harg : A + k * (L * 86400) + r - A = r + k * (L * 86400) := by ring
    rw [harg, Int.add_mul_ediv_right r k (ne_of_gt hP),
        Int.ediv_eq_zero_of_lt hr hrP]
    ring

theorem c2_witness :
    current_cycle_bounds 0 1 100 = (0, 86399) := by
  have h := (c2_cycle_partition 0 1 100 (by decide)).2.1 (by decide)
  rw [h]
  decide

/-- C7 counterexample: with anchor 2025-08-08 (midnight KST), cycle length
8 days and now at 2025-08-20 midnight KST, the calculator starts the
current cycle at 2025-08-16, not at the 2025-08-15 the claim names, and
its inclusive end is one second before 2025-08-24, not before 2025-08-23,
refuting the claimed interval [2025-08-15, 2025-08-23). -/
theorem c7_counterexample :
    (current_cycle_bounds (kstMidnightEpoch 2025 8 8) 8
        (kstMidnightEpoch 2025 8 20)).1 ≠ kstMidnightEpoch 2025 8 15 ∧
    (current_cycle_bounds (kstMidnightEpoch 2025 8 8) 8
        (kstMidnightEpoch 2025 8 20)).2 ≠ kstMidnightEpoch 2025 8 23 - 1 := by
  decide

/-- C7 (amended): with anchor 2025-08-08 (midnight KST) and cycle length
8 days, at every instant of the civil day 2025-08-20 the calculator
returns the cycle [2025-08-16, 2025-08-24), rendered as the pair of the
start instant and the inclusive end one second before 2025-08-24. -/
theorem c7_scenario (s : Int) (h0 : 0 ≤ s) (h1 : s < 86400) :
    current_cycle_bounds (kstMidnightEpoch 2025 8 8) 8
        (kstMidnightEpoch 2025 8 20 + s) =
      (kstMidnightEpoch 2025 8 16, kstMidnightEpoch 2025 8 24 - 1) := by
  have ha : kstMidnightEpoch 2025 8 8 = 1754578800 := by decide
  have hn : kstMidnightEpoch 2025 8 20 = 1755615600 := by decide
  have h16 : kstMidnightEpoch 2025 8 16 = 1755270000 := by decide
  have h24 : kstMidnightEpoch 2025 8 24 = 1755961200 := by decide
  rw [ha, hn, h16, h24]
  have h2 : ¬(1755615600 + s < (1754578800 : Int)) := by omega
  simp only [current_cycle_bounds, h2, if_false]
  have harg : (1755615600 + s - 1754578800) / ((8 : Int) * 86400) = 1 := by
    omega
  rw [harg]
  norm_num

theorem c7_witness :
    current_cycle_bounds (kstMidnightEpoch 2025 8 8) 8
        (kstMidnightEpoch 2025 8 20) =
      (kstMidnightEpoch 2025 8 16, kstMidnightEpoch 2025 8 24 - 1) := by
  have h := c7_scenario 0 (by decide) (by decide)
  simpa using h

theorem insertByCntDesc_perm (x : TopRow) (l : List TopRow) :
    List.Perm (insertByCntDesc x l) (x :: l) := by
  induction l with
  | nil => exact List.Perm.refl _
  | cons y ys ih =>
    by_cases h : y.cnt < x.cnt
    · simp [insertByCntDesc, h]
    · simp only [insertByCntDesc, h, if_false]
      exact ((ih.cons y).trans (List.Perm.swap x y ys))

theorem sortByCntDesc_perm (l : List TopRow) :
    List.Perm (sortByCntDesc l) l := by
  induction l with
  | nil => exact List.Perm.refl _
  | cons y ys ih =>
    have h1 : List.Perm (insertByCntDesc y (sortByCntDesc ys)) (y :: sortByCntDesc ys) :=
      insertByCntDesc_perm y (sortByCntDesc ys)
    exact h1.trans (ih.cons y)

theorem insertByCntDesc_sorted (x : TopRow) (l : List TopRow)
    (h : List.Pairwise (fun a b => b.cnt ≤ a.cnt) l) :
    List.Pairwise (fun a b => b.cnt ≤ a.cnt) (insertByCntDesc x l) := by
  induction l with
  | nil => exact List.pairwise_singleton _ _
  | cons y ys ih =>
    rcases List.pairwise_cons.mp h with ⟨hy, hys⟩
    by_cases hcmp : y.cnt < x.cnt
    · simp only [insertByCntDesc, hcmp, if_true]
      refine List.pairwise_cons.mpr ⟨?_, h⟩
      intro z hz
      rcases List.mem_cons.mp hz with rfl | hz2
      · omega
      · have := hy z hz2
        omega
    · simp only [insertByCntDesc, hcmp, if_false]
      refine List.pairwise_cons.mpr ⟨?_, ih hys⟩
      intro z hz
      have hz3 : z ∈ x :: ys := (insertByCntDesc_perm x ys).mem_iff.mp hz
      rcases List.mem_cons.mp hz3 with rfl | hz4
      · omega
      · exact hy z hz4

theorem sortByCntDesc_sorted (l : List TopRow) :
    List.Pairwise (fun a b => b.cnt ≤ a.cnt) (sortByCntDesc l) := by
  induction l with
  | nil => exact List.Pairwise.nil
  | cons y ys ih => exact insertByCntDesc_sorted y (sortByCntDesc ys) ih

/-- C5 counterexample: on a room whose only uploader 7 is credited with
three distinct videos, two stored under username a and one under
username b, the leaderboard query returns two rows (both for uploader 7,
with counts 2 and 1) instead of one row per distinct uploader holding
that uploader's total distinct-content count of 3 — the GROUP BY key of
the query is the pair (uploader id, username), not the uploader. -/
theorem c5_counterexample :
    ((c5Table.filter fun r => r.chat_id == 1).map
        (fun r => r.first_uploader_id)).dedup = [7] ∧
    (top c5Table 1).length = 2 ∧
    (∀ row ∈ top c5Table 1, row.uploader_id = 7) ∧
    (∀ row ∈ top c5Table 1, row.cnt ≠ 3) := by
  decide

/-- C5 (amended): for every room, the leaderboard query returns the first
limit (10) rows of a sequence holding exactly one row per distinct pair
(first-uploader id, stored display label) occurring in the room, each row
carrying the number of ledger rows with exactly that pair, sorted by
count descending; the order among rows with equal counts is left
unspecified by the SQL and realised here by one fixed refinement, and when
an uploader appears under several stored labels the uploader is split
across several rows. -/
theorem c5_rank_top (t : VideosTable) (chat : Int) :
    top t chat = (topAll t chat).take 10 ∧
    (top t chat).length ≤ 10 ∧
    List.Pairwise (fun a b => b.cnt ≤ a.cnt) (top t chat) ∧
    List.Pairwise
      (fun a b => ¬(a.uploader_id = b.uploader_id ∧ a.uname = b.uname))
      (topAll t chat) ∧
    (∀ row ∈ topAll t chat,
      row.cnt = ((t.filter fun r => r.chat_id == chat).filter
          fun r => rowKey r == (row.uploader_id, row.uname)).length) ∧
    (∀ u : Int, ∀ n : String,
      (∃ row ∈ topAll t chat, row.uploader_id = u ∧ row.uname = n) ↔
      (∃ r ∈ t, r.chat_id = chat ∧ rowKey r = (u, n))) := by
  have hperm : List.Perm (topAll t chat)
      ((((t.filter fun r => r.chat_id == chat).map rowKey).dedup).map fun k =>
        { uploader_id := k.1, uname := k.2,
          cnt := ((t.filter fun r => r.chat_id == chat).filter
              fun r => rowKey r == k).length }) :=
    sortByCntDesc_perm _
  refine ⟨rfl, ?_, ?_, ?_, ?_, ?_⟩
  · rw [top, List.length_take]
    exact inf_le_left
  · exact (sortByCntDesc_sorted _).sublist (List.take_sublist _ _)
  · have hnodup : (((t.filter fun r => r.chat_id == chat).map rowKey).dedup).Nodup :=
      List.nodup_dedup _
    have hmapped : List.Pairwise
        (fun a b : TopRow => ¬(a.uploader_id = b.uploader_id ∧ a.uname = b.uname))
        ((((t.filter fun r => r.chat_id == chat).map rowKey).dedup).map fun k =>
          { uploader_id := k.1, uname := k.2,
            cnt := ((t.filter fun r => r.chat_id == chat).filter
                fun r => rowKey r == k).length }) := by
      refine List.Pairwise.map _ ?_ hnodup
      intro a b hab hcontr
      exact hab (Prod.ext hcontr.1 hcontr.2)
    have hsymm : ∀ {x y : TopRow},
        (fun a b : TopRow => ¬(a.uploader_id = b.uploader_id ∧ a.uname = b.uname)) x y →
        (fun a b : TopRow => ¬(a.uploader_id = b.uploader_id ∧ a.uname = b.uname)) y x := by
      intro x y h hc
      exact h ⟨hc.1.symm, hc.2.symm⟩
    exact (List.Perm.pairwise_iff hsymm hperm).mpr hmapped
  · intro row hrow
    have hmem := hperm.mem_iff.mp hrow
    rcases List.mem_map.mp hmem with ⟨k, hk, hkrow⟩
    subst hkrow
    rfl
  · intro u n
    constructor
    · rintro ⟨row, hrow, hu, hn⟩
      have hmem := hperm.mem_iff.mp hrow
      rcases List.mem_map.mp hmem with ⟨k, hk, hkrow⟩
      have hk2 : k ∈ (t.filter fun r => r.chat_id == chat).map rowKey :=
        List.mem_dedup.mp hk
      rcases List.mem_map.mp hk2 with ⟨r, hr, hrk⟩
      rcases List.mem_filter.mp hr with ⟨hrt, hrchat⟩
      refine ⟨r, hrt, by simpa using hrchat, ?_⟩
      rw [hrk]
      have h1 : k.1 = u := by rw [← hu, ← hkrow]
      have h2 : k.2 = n := by rw [← hn, ← hkrow]
      rw [← h1, ← h2]
    · rintro ⟨r, hrt, hrchat, hrk⟩
      have hr : r ∈ t.filter fun r => r.chat_id == chat :=
        List.mem_filter.mpr ⟨hrt, by simpa using hrchat⟩
      have hk : (u, n) ∈ ((t.filter fun r => r.chat_id == chat).map rowKey).dedup :=
        List.mem_dedup.mpr (List.mem_map.mpr ⟨r, hr, hrk⟩)
      refine ⟨⟨u, n, ((t.filter fun r => r.chat_id == chat).filter
              fun r => rowKey r == (u, n)).length⟩, ?_, rfl, rfl⟩
      exact hperm.mem_iff.mpr (List.mem_map.mpr ⟨(u, n), hk, rfl⟩)

theorem c5_witness :
    (top c5Table 1).length ≤ 10 ∧
    ({ uploader_id := 7, uname := "a", cnt := 2 } : TopRow).cnt =
      ((c5Table.filter fun r => r.chat_id == 1).filter
          fun r => rowKey r == (7, "a")).length := by
  constructor
  · exact (c5_rank_top c5Table 1).2.1
  · exact (c5_rank_top c5Table 1).2.2.2.2.1
      { uploader_id := 7, uname := "a", cnt := 2 } (by decide)

theorem migrateInsert_cons_mem (newId : Int) (acc : VideosTable) (r : VideoRow)
    (rs : List VideoRow) (h : hasKey acc newId r.file_unique_id = true) :
    migrateInsert newId acc (r :: rs) = migrateInsert newId acc rs := by
  simp [migrateInsert, h]

theorem migrateInsert_cons_new (newId : Int) (acc : VideosTable) (r : VideoRow)
    (rs : List VideoRow) (h : hasKey acc newId r.file_unique_id = false) :
    migrateInsert newId acc (r :: rs)
      = moveRow newId r :: migrateInsert newId (acc ++ [moveRow newId r]) rs := by
  simp [migrateInsert, h]

theorem foldl_insertVideo_eq (newId : Int) (rows : List VideoRow) :
    ∀ acc : VideosTable,
      rows.foldl (fun a r => (insertVideo a (moveRow newId r)).1) acc
        = acc ++ migrateInsert newId acc rows := by
  induction rows with
  | nil => intro acc; simp [migrateInsert]
  | cons r rs ih =>
    intro acc
    rw [List.foldl_cons]
    by_cases h : hasKey acc newId r.file_unique_id = true
    · have hstep : (insertVideo acc (moveRow newId r)).1 = acc := by
        simp [insertVideo, moveRow, h]
      rw [hstep, ih acc, migrateInsert_cons_mem newId acc r rs h]
    · have hf : hasKey acc newId r.file_unique_id = false := by simpa using h
      have hstep : (insertVideo acc (moveRow newId r)).1 = acc ++ [moveRow newId r] := by
        simp [insertVideo, moveRow, hf]
      rw [hstep, ih (acc ++ [moveRow newId r]),
          migrateInsert_cons_new newId acc r rs hf, List.append_assoc]
      rfl

theorem migrateInsert_congr (newId : Int) :
    ∀ (rows : List VideoRow) (acc1 acc2 : VideosTable),
      (∀ r ∈ rows,
        hasKey acc1 newId r.file_unique_id = hasKey acc2 newId r.file_unique_id) →
      migrateInsert newId acc1 rows = migrateInsert newId acc2 rows := by
  intro rows
  induction rows with
  | nil => intro _ _ _; rfl
  | cons r rs ih =>
    intro acc1 acc2 h
    have hr := h r (List.mem_cons_self r rs)
    have htail : ∀ b ∈ rs,
        hasKey acc1 newId b.file_unique_id = hasKey acc2 newId b.file_unique_id :=
      fun b hb => h b (List.mem_cons_of_mem r hb)
    by_cases hk : hasKey acc1 newId r.file_unique_id = true
    · have hk2 : hasKey acc2 newId r.file_unique_id = true := hr ▸ hk
      rw [migrateInsert_cons_mem newId acc1 r rs hk,
          migrateInsert_cons_mem newId acc2 r rs hk2]
      exact ih acc1 acc2 htail
    · have hkf : hasKey acc1 newId r.file_unique_id = false := by simpa using hk
      have hk2f : hasKey acc2 newId r.file_unique_id = false := hr ▸ hkf
      rw [migrateInsert_cons_new newId acc1 r rs hkf,
          migrateInsert_cons_new newId acc2 r rs hk2f]
      have hcond : ∀ b ∈ rs,
          hasKey (acc1 ++ [moveRow newId r]) newId b.file_unique_id
            = hasKey (acc2 ++ [moveRow newId r]) newId b.file_unique_id := by
        intro b hb
        rw [hasKey_append, hasKey_append, htail b hb]
      rw [ih (acc1 ++ [moveRow newId r]) (acc2 ++ [moveRow newId r]) hcond]

theorem migrateInsert_eq_filter (newId : Int) (t : VideosTable) :
    ∀ rows : List VideoRow,
      List.Pairwise (fun a b => a.file_unique_id ≠ b.file_unique_id) rows →
      migrateInsert newId t rows
        = (rows.filter fun r => !(hasKey t newId r.file_unique_id)).map
            (moveRow newId) := by
  intro rows
  induction rows with
  | nil => intro _; rfl
  | cons r rs ih =>
    intro hpw
    rcases List.pairwise_cons.mp hpw with ⟨hhead, htail⟩
    by_cases hk : hasKey t newId r.file_unique_id = true
    · rw [migrateInsert_cons_mem newId t r rs hk, ih htail, List.filter_cons]
      simp [hk]
    · have hkf : hasKey t newId r.file_unique_id = false := by simpa using hk
      have hcongr : migrateInsert newId (t ++ [moveRow newId r]) rs
          = migrateInsert newId t rs := by
        apply migrateInsert_congr
        intro b hb
        rw [hasKey_append]
        have hone : hasKey [moveRow newId r] newId b.file_unique_id = false := by
          simp [hasKey, moveRow, beq_eq_false_iff_ne]
          exact hhead b hb
        rw [hone, Bool.or_false]
      rw [migrateInsert_cons_new newId t r rs hkf, hcongr, ih htail,
          List.filter_cons]
      simp [hkf]

theorem handle_migrate_eq (t : VideosTable) (oldId newId : Int)
    (hne : oldId ≠ newId) (hu : pkUnique t) :
    handle_migrate t oldId newId =
      (t.filter fun r => !(r.chat_id == oldId)) ++
      (((t.filter fun r => r.chat_id == oldId).filter
          fun r => !(hasKey t newId r.file_unique_id)).map (moveRow newId)) := by
  have hu2 : List.Pairwise
      (fun r1 r2 => ¬(r1.chat_id = r2.chat_id ∧ r1.file_unique_id = r2.file_unique_id))
      t := hu
  have hrows : List.Pairwise (fun a b => a.file_unique_id ≠ b.file_unique_id)
      (t.filter fun r => r.chat_id == oldId) := by
    refine (hu2.filter _).imp_of_mem ?_
    intro a b ha hb hR hcontr
    have ha2 : a.chat_id = oldId := by
      simpa using (List.mem_filter.mp ha).2
    have hb2 : b.chat_id = oldId := by
      simpa using (List.mem_filter.mp hb).2
    exact hR ⟨ha2.trans hb2.symm, hcontr⟩
  show (((t.filter fun r => r.chat_id == oldId).foldl
      (fun acc r => (insertVideo acc (moveRow newId r)).1) t).filter
        fun r => !(r.chat_id == oldId)) = _
  rw [foldl_insertVideo_eq, migrateInsert_eq_filter newId t _ hrows,
      List.filter_append]
  congr 1
  rw [List.filter_eq_self]
  intro a ha
  rcases List.mem_map.mp ha with ⟨r0, _, hr0⟩
  subst hr0
  simp [moveRow, Ne.symm hne]

/-- C3: after handle_migrate(old, new) on a table satisfying the
primary-key invariant, with old and new distinct room ids: the old room
holds zero rows; every old-room row whose file_unique_id was not already
credited in the new room reappears re-homed to the new room with its
first uploader id, username and first-upload instant unchanged; every row
of every other room — in particular every pre-existing credit of the new
room, which is exactly the overlap case in which the source row is
dropped — survives unchanged; every row of the result either was already
in the table or is such a re-homed old-room row, so nothing else is
created; and the primary-key uniqueness invariant still holds, so no row
is duplicated. -/
theorem c3_merge (t : VideosTable) (oldId newId : Int)
    (hne : oldId ≠ newId) (hu : pkUnique t) :
    (∀ r ∈ handle_migrate t oldId newId, r.chat_id ≠ oldId) ∧
    (∀ r ∈ t, r.chat_id = oldId → hasKey t newId r.file_unique_id = false →
      moveRow newId r ∈ handle_migrate t oldId newId) ∧
    (∀ r ∈ t, r.chat_id ≠ oldId → r ∈ handle_migrate t oldId newId) ∧
    (∀ r2 ∈ handle_migrate t oldId newId,
      r2 ∈ t ∨ (r2.chat_id = newId ∧ moveRow oldId r2 ∈ t ∧
        hasKey t newId r2.file_unique_id = false)) ∧
    pkUnique (handle_migrate t oldId newId) := by
  have heq := handle_migrate_eq t oldId newId hne hu
  have hu2 : List.Pairwise
      (fun r1 r2 => ¬(r1.chat_id = r2.chat_id ∧ r1.file_unique_id = r2.file_unique_id))
      t := hu
  refine ⟨?_, ?_, ?_, ?_, ?_⟩
  · intro r hr
    rw [heq] at hr
    rcases List.mem_append.mp hr with hrF | hrM
    · have := (List.mem_filter.mp hrF).2
      simpa using this
    · rcases List.mem_map.mp hrM with ⟨r0, _, hr0⟩
      subst hr0
      show newId ≠ oldId
      exact Ne.symm hne
  · intro r hr hchat hkey
    rw [heq]
    refine List.mem_append.mpr (Or.inr (List.mem_map.mpr ⟨r, ?_, rfl⟩))
    refine List.mem_filter.mpr ⟨List.mem_filter.mpr ⟨hr, by simp [hchat]⟩, by simp [hkey]⟩
  · intro r hr hchat
    rw [heq]
    exact List.mem_append.mpr (Or.inl (List.mem_filter.mpr ⟨hr, by simp [hchat]⟩))
  · intro r2 hr2
    rw [heq] at hr2
    rcases List.mem_append.mp hr2 with hrF | hrM
    · exact Or.inl (List.mem_of_mem_filter hrF)
    · rcases List.mem_map.mp hrM with ⟨r0, hr0mem, hr0⟩
      rcases List.mem_filter.mp hr0mem with ⟨hr0a, hr0key⟩
      rcases List.mem_filter.mp hr0a with ⟨hr0t, hr0chat⟩
      have hr0chat2 : r0.chat_id = oldId := by simpa using hr0chat
      have hr0key2 : hasKey t newId r0.file_unique_id = false := by
        simpa using hr0key
      subst hr0
      refine Or.inr ⟨rfl, ?_, hr0key2⟩
      have hback : moveRow oldId (moveRow newId r0) = r0 := by
        cases r0
        simp_all [moveRow]
      rw [hback]
      exact hr0t
  · show List.Pairwise _ _
    rw [heq]
    refine List.pairwise_append.mpr ⟨hu2.filter _, ?_, ?_⟩
    · have hrows : List.Pairwise (fun a b => a.file_unique_id ≠ b.file_unique_id)
          (t.filter fun r => r.chat_id == oldId) := by
        refine (hu2.filter _).imp_of_mem ?_
        intro a b ha hb hR hcontr
        have ha2 : a.chat_id = oldId := by
          simpa using (List.mem_filter.mp ha).2
        have hb2 : b.chat_id = oldId := by
          simpa using (List.mem_filter.mp hb).2
        exact hR ⟨ha2.trans hb2.symm, hcontr⟩
      refine List.Pairwise.map _ ?_ (hrows.filter _)
      intro a b hab hcontr
      exact hab hcontr.2
    · intro a haF b hbM
      rcases List.mem_map.mp hbM with ⟨r0, hr0mem, hr0⟩
      rcases List.mem_filter.mp hr0mem with ⟨_, hr0key⟩
      have hr0key2 : hasKey t newId r0.file_unique_id = false := by
        simpa using hr0key
      subst hr0
      intro hcontr
      have haT : a ∈ t := List.mem_of_mem_filter haF
      have : hasKey t newId r0.file_unique_id = true := by
        refine (hasKey_iff t newId r0.file_unique_id).mpr ⟨a, haT, ?_, ?_⟩
        · exact hcontr.1
        · exact hcontr.2
      rw [this] at hr0key2
      exact absurd hr0key2 (by decide)

theorem c3_witness :
    moveRow 2 (⟨1, "a", 5, some "x", 10⟩ : VideoRow) ∈ handle_migrate c3Table 1 2 ∧
    (⟨2, "b", 9, some "y", 3⟩ : VideoRow) ∈ handle_migrate c3Table 1 2 ∧
    (∀ r ∈ handle_migrate c3Table 1 2, r.chat_id ≠ 1) := by
  refine ⟨?_, ?_, ?_⟩
  · exact (c3_merge c3Table 1 2 (by decide) (by decide)).2.1
      (⟨1, "a", 5, some "x", 10⟩ : VideoRow) (by decide) rfl (by decide)
  · exact (c3_merge c3Table 1 2 (by decide) (by decide)).2.2.1
      (⟨2, "b", 9, some "y", 3⟩ : VideoRow) (by decide) (by decide)
  · exact (c3_merge c3Table 1 2 (by decide) (by decide)).1

end VideoBot
